import Mathlib

set_option maxHeartbeats 1000000

/-!
Verification development for the ECHO hyperparameter-optimization harness.

The development shallowly embeds the Python sources:
  * `echo/src/base_objective.py` (`BaseObjective.update_config`, `BaseObjective.save`),
  * `echo/run.py` (the wall-time budget loop in `main`),
and, where the repository snapshot does not ship the helper module
`echo/src/config.py`, models `recursive_update` / `recursive_config_reader`
from the specification text (section 4.1).

Python dictionaries are embedded as insertion-ordered association lists,
floating-point arithmetic as real arithmetic, and exceptions as `Except`.
-/

namespace EchoConfig

/-- Modelled from the spec: the configuration tree of section 3 — "an arbitrarily
nested mapping from string keys to scalars, lists, or further mappings".  A
value is either a leaf (any non-mapping value, of type `α`) or a nested mapping,
embedded as an insertion-ordered association list. -/
inductive CVal (α : Type) where
  | leaf : α → CVal α
  | node : List (String × CVal α) → CVal α
deriving Repr

/-- The entries of one mapping level of a configuration tree. -/
abbrev Entries (α : Type) := List (String × CVal α)

/-- Dictionary lookup `tree[k]` on one mapping level (first matching key). -/
def lookupKey {α : Type} (k : String) : Entries α → Option (CVal α)
  | [] => none
  | (k', v) :: rest => if k' = k then some v else lookupKey k rest

/-- Dictionary assignment `tree[k] = v`: replaces the value of an existing key
in place, otherwise appends the new key at the end (Python insertion order). -/
def setKey {α : Type} (k : String) (v : CVal α) : Entries α → Entries α
  | [] => [(k, v)]
  | (k', v') :: rest => if k' = k then (k, v) :: rest else (k', v') :: setKey k v rest

/-- Modelled from the spec (section 4.1, `recursive_update` of the missing
`echo/src/config.py`): if the path has one segment, set `tree[path[0]] = value`
unconditionally; otherwise, if `tree[path[0]]` does not exist or is not a
mapping, create/replace it with an empty mapping, and recurse with `path[1:]`.
An empty path leaves the tree unchanged (the spec only covers non-empty
paths). -/
def recursive_update {α : Type} (path : List String) (tree : Entries α) (value : α) :
    Entries α :=
  match path with
  | [] => tree
  | [p] => setKey p (.leaf value) tree
  | p :: ps =>
    let sub : Entries α :=
      match lookupKey p tree with
      | some (.node m) => m
      | _ => []
    setKey p (.node (recursive_update ps sub value)) tree

mutual

/-- Flattened leaves of a single configuration value rooted at key `k`. -/
def readerVal {α : Type} (k : String) : CVal α → List (List String × α)
  | .leaf v => [([k], v)]
  | .node m => (readerEntries m).map (fun p => (k :: p.1, p.2))

/-- Flattened leaves of a list of entries, in entry order. -/
def readerEntries {α : Type} : Entries α → List (List String × α)
  | [] => []
  | (k, c) :: rest => readerVal k c ++ readerEntries rest

end

/-- Modelled from the spec (section 4.1, `recursive_config_reader` of the
missing `echo/src/config.py`): flatten a nested mapping into one
`(path, value)` pair per leaf (non-mapping value), with `path` the full
segment sequence from the root. -/
def recursive_config_reader {α : Type} (tree : Entries α) : List (List String × α) :=
  readerEntries tree

end EchoConfig

namespace Echo

/-!
Embedding of `BaseObjective.save` (`echo/src/base_objective.py`, lines 92-135).

`self.results` is a `defaultdict(list)` whose values are lists of scalars,
except for the `"pruned"` entry, which line 116 *assigns* (rather than
appends) a scalar.  We embed the dictionary as an insertion-ordered
association list from column name to a `Cell` that is either a list of
scalars or a single scalar.  Scalar values (parameters, metrics, the pruned
flag) are embedded as `SVal`: rationals stand for Python numbers, strings for
categorical values.
-/

/-- A scalar value stored in the results ledger: a number or a string. -/
inductive SVal where
  | num : ℚ → SVal
  | str : String → SVal
deriving Repr, DecidableEq

/-- One value of the `self.results` dictionary: a per-trial list (the
`defaultdict(list)` default) or a single scalar (the `"pruned"` entry after
line 116's plain assignment). -/
inductive Cell where
  | list : List SVal → Cell
  | scalar : SVal → Cell
deriving Repr, DecidableEq

/-- The in-memory results ledger `self.results`, insertion ordered. -/
abbrev Results := List (String × Cell)

/-- First-match association-list lookup (Python dictionary access). -/
def alookup {β : Type} (k : String) : List (String × β) → Option β
  | [] => none
  | (k', v) :: rest => if k' = k then some v else alookup k rest

/-- Dictionary assignment `d[k] = v`: replaces an existing key in place,
otherwise appends at the end (Python insertion order). -/
def setVal {β : Type} (k : String) (v : β) : List (String × β) → List (String × β)
  | [] => [(k, v)]
  | (k', v') :: rest => if k' = k then (k, v) :: rest else (k', v') :: setVal k v rest

/-- `self.results[k].append(v)` on a `defaultdict(list)`: an absent key starts
as the empty list, then the value is appended.  (If the existing cell is the
scalar `"pruned"` entry, CPython would raise `AttributeError`; that point is
unreachable in the theorems below, which keep `"pruned"` out of the appended
keys, and is embedded as leaving the cell unchanged.) -/
def resAppend (k : String) (v : SVal) : Results → Results
  | [] => [(k, .list [v])]
  | (k', c) :: rest =>
    if k' = k then
      (k, match c with
          | .list l => Cell.list (l ++ [v])
          | .scalar w => Cell.scalar w) :: rest
    else (k', c) :: resAppend k v rest

/-- The study metric `self.metric`: one string or a list of strings. -/
inductive Metric where
  | single : String → Metric
  | multi : List String → Metric
deriving Repr, DecidableEq

/-- The per-trial data `save` reads from the optuna trial handle:
`trial.number`, `trial.params`, and `trial.should_prune()`. -/
structure Trial where
  number : ℕ
  params : List (String × SVal)
  shouldPrune : Bool
deriving Repr, DecidableEq

/-- `k in d` for the training routine's results dictionary. -/
def hasKey (k : String) (d : List (String × SVal)) : Bool :=
  (alookup k d).isSome

/-- The assertion message of `save` for a missing metric (lines 97-104). -/
def missingMetricMsg (m : String) : String :=
  "You must return the metric " ++ m ++ " result to the hyperparameter optimizer"

/-- The metric-presence assertions at the top of `save` (lines 95-104): a
single metric is checked directly; a metric list is checked element by
element in order, failing at the first absent one. -/
def checkMetrics : Metric → List (String × SVal) → Option String
  | .single s, d => if hasKey s d then none else some (missingMetricMsg s)
  | .multi ms, d =>
    ms.findSome? (fun m => if hasKey m d then none else some (missingMetricMsg m))

/-- Number of rows of `pd.DataFrame.from_dict(self.results)`: the length of
the `"trial"` column (the list columns share one length in every state `save`
produces, and scalar entries are broadcast to every row). -/
def nRows (res : Results) : ℕ :=
  match alookup "trial" res with
  | some (.list l) => l.length
  | _ => 0

/-- The value of a results cell in row `i` of the dataframe: list cells are
indexed, scalar cells are broadcast to every row. -/
def dfCell (c : Cell) (i : ℕ) : Option SVal :=
  match c with
  | .list l => l.get? i
  | .scalar v => some v

/-- Row `i` of `pd.DataFrame.from_dict(self.results)`: one `(column, value)`
pair per results key, in insertion order. -/
def dfRow (res : Results) (i : ℕ) : List (String × Option SVal) :=
  res.map (fun p => (p.1, dfCell p.2 i))

/-- The trial number stored in a `"trial"` cell (the column always holds the
natural numbers `trial.number`; non-numeric values are junk-mapped to 0). -/
def svalKey : SVal → ℕ
  | .num q => q.num.toNat
  | .str _ => 0

/-- The trial number of row `i` of the in-memory dataframe. -/
def rowKeyAt (res : Results) (i : ℕ) : ℕ :=
  match alookup "trial" res with
  | some (.list l) => svalKey ((l.get? i).getD (.num 0))
  | _ => 0

/-- One persisted ledger row: the trial number and the row's cells. -/
abbrev DiskRow := ℕ × List (String × Option SVal)

/-- The rows of the dataframe built from the in-memory ledger, keyed by trial
number. -/
def memRows (res : Results) : List DiskRow :=
  (List.range (nRows res)).map (fun i => (rowKeyAt res i, dfRow res i))

/-- `df.drop_duplicates(["trial"])` with pandas' default `keep="first"`:
keeps the first row of each trial number, preserving order. -/
def dropDupTrials {α : Type} : List (ℕ × α) → List (ℕ × α)
  | [] => []
  | r :: rs => r :: dropDupTrials (rs.filter (fun s => s.1 != r.1))
termination_by l => l.length
decreasing_by
  simp only [List.length_cons]
  exact Nat.lt_succ_of_le (List.length_filter_le _ _)

/-- `df.sort_values(["trial"])`: sort rows by trial number ascending (the
keys are unique after deduplication, so any comparison sort gives the pandas
result). -/
def sortTrials {α : Type} (l : List (ℕ × α)) : List (ℕ × α) :=
  l.insertionSort (fun a b => a.1 ≤ b.1)

/-- Lines 117-126 of `save`: concatenate the in-memory rows with the rows
already on disk (the in-memory dataframe comes first in `pd.concat`), drop
duplicate trial numbers keeping the first (hence newer) row, and sort by
trial number ascending.  The result overwrites the results file. -/
def mergeLedger {α : Type} (newRows oldRows : List (ℕ × α)) : List (ℕ × α) :=
  sortTrials (dropDupTrials (newRows ++ oldRows))

/-- The value `save` returns to optuna: `results_dict[self.metric]` for a
single-objective study, or the list `[self.results[m] for m in self.metric]`
for a multi-objective study (note: the source takes the entries of the
*in-memory ledger*, which are per-metric lists). -/
inductive SaveRet where
  | single : SVal → SaveRet
  | multi : List (List SVal) → SaveRet
deriving Repr, DecidableEq

/-- `results_dict[k]` after the presence check (absence is unreachable; the
junk default is never produced by `save`). -/
def dictGet (k : String) (d : List (String × SVal)) : SVal :=
  (alookup k d).getD (.num 0)

/-- `self.results[k]` as a list: a `defaultdict(list)` yields `[]` for an
absent key; the scalar `"pruned"` cell is junk-mapped to `[]` (taking a
declared metric named `"pruned"` is excluded by hypothesis where relevant). -/
def resGetList (k : String) (res : Results) : List SVal :=
  match alookup k res with
  | some (.list l) => l
  | _ => []

/-- The outcome of a successful `save`: the updated in-memory ledger, the
rows written to the results file, and the value returned to optuna. -/
structure SaveOut where
  results : Results
  disk : List DiskRow
  ret : SaveRet
deriving Repr, DecidableEq

/-- The body of `save` after the assertions pass (lines 106-135): append the
trial number, every suggested parameter and every returned metric to the
in-memory ledger, assign the scalar pruned flag, merge the resulting
dataframe with the on-disk ledger, and build the return value. -/
def saveSuccess (metric : Metric) (res : Results) (disk : List DiskRow)
    (trial : Trial) (results_dict : List (String × SVal)) : SaveOut :=
  let res1 := resAppend "trial" (.num trial.number) res
  let res2 := trial.params.foldl (fun r p => resAppend p.1 p.2 r) res1
  let res3 := results_dict.foldl (fun r p => resAppend p.1 p.2 r) res2
  let res4 := setVal "pruned" (.scalar (.num (if trial.shouldPrune then 1 else 0))) res3
  let disk' := mergeLedger (memRows res4) disk
  let ret : SaveRet :=
    match metric with
    | .single s => .single (dictGet s results_dict)
    | .multi ms => .multi (ms.map (fun m => resGetList m res4))
  ⟨res4, disk', ret⟩

/-- `BaseObjective.save` (lines 92-135): assert every required metric is
present, then run the persistence body.  The assertions precede every
mutation in the source, so the failure case carries no state. -/
def save (metric : Metric) (res : Results) (disk : List DiskRow)
    (trial : Trial) (results_dict : List (String × SVal)) :
    Except String SaveOut :=
  match checkMetrics metric results_dict with
  | some msg => .error msg
  | none => .ok (saveSuccess metric res disk trial results_dict)

/-- The worker's ledger state: the in-memory results dictionary and the rows
of the on-disk results file. -/
structure LedgerState where
  results : Results
  disk : List DiskRow
deriving Repr, DecidableEq

/-- `save` as a transition on the ledger state: on an assertion failure the
state is unchanged (the assertions run before any mutation in the source). -/
def saveStep (st : LedgerState) (metric : Metric) (trial : Trial)
    (results_dict : List (String × SVal)) : LedgerState × Except String SaveRet :=
  match save metric st.results st.disk trial results_dict with
  | .error msg => (st, .error msg)
  | .ok out => (⟨out.results, out.disk⟩, .ok out.ret)

/-- Projection of the value a `save` call returns to optuna, when it
succeeds. -/
def saveRet? (e : Except String SaveOut) : Option SaveRet :=
  match e with
  | .ok o => some o.ret
  | .error _ => none

end Echo

namespace EchoRun

/-!
Embedding of the wall-time budget loop of `main` (`echo/run.py`,
lines 186-234).  Wall-clock instants and durations are embedded as real
numbers (seconds).  `study.trials_dataframe()` is embedded as a list of rows
with a start instant and an optional completion instant; `run_times` keeps,
in hours, the durations of the rows with a recorded completion (pandas'
`mean`/`std` skip the missing values of incomplete rows).  `std` is the
sample standard deviation (pandas' default `ddof=1`); for a single completed
duration the source produces NaN (and every comparison against it is false),
which the real-number embedding junk-maps to `0/0 = 0` — the theorems below
only rely on this point where the stop decision agrees with the NaN one.
-/

/-- One row of `study.trials_dataframe()`: `datetime_start` and an optional
`datetime_complete`, as seconds. -/
structure TrialRow where
  datetimeStart : ℝ
  datetimeComplete : Option ℝ

/-- Lines 206-212: the run times, in hours, of the rows with a recorded
completion timestamp (`total_seconds() / 3600.0`). -/
noncomputable def runTimesHours (df : List TrialRow) : List ℝ :=
  df.filterMap (fun r => r.datetimeComplete.map (fun c => (c - r.datetimeStart) / 3600))

/-- `run_times.mean()`. -/
noncomputable def dfMean (l : List ℝ) : ℝ := l.sum / l.length

/-- `run_times.std()`: sample standard deviation with pandas' default
`ddof = 1`. -/
noncomputable def dfStd (l : List ℝ) : ℝ :=
  Real.sqrt ((l.map (fun x => (x - dfMean l) ^ 2)).sum / ((l.length : ℝ) - 1))

/-- The outcome of one early-stopping check: whether the loop breaks before
launching another trial, and the value of `estimated_run_time` afterwards. -/
structure CheckResult where
  stop : Bool
  estimate : ℝ

/-- The early-stopping check after one `study.optimize` call (lines 203-234):
with more than one dataframe row, set `estimated_run_time` to
`mean + 2 * std` of the completed run times and stop when the time left on
the node is below it; with at most one row, stop when the time left is below
half the wall time, and otherwise set `estimated_run_time` to `0.95` of the
time left. -/
noncomputable def budgetCheck (wallTimeSecs : ℝ) (df : List TrialRow)
    (elapsed : ℝ) (est : ℝ) : CheckResult :=
  if 1 < df.length then
    if wallTimeSecs - elapsed <
        dfMean (runTimesHours df) + 2 * dfStd (runTimesHours df) then
      ⟨true, dfMean (runTimesHours df) + 2 * dfStd (runTimesHours df)⟩
    else ⟨false, dfMean (runTimesHours df) + 2 * dfStd (runTimesHours df)⟩
  else
    if wallTimeSecs - elapsed < wallTimeSecs / 2 then ⟨true, est⟩
    else ⟨false, 0.95 * (wallTimeSecs - elapsed)⟩

/-- How one `study.optimize(objective, n_trials=1, timeout=...)` call ends:
normally, by `KeyboardInterrupt`, or by any other exception. -/
inductive TrialOutcome where
  | ok
  | interrupt
  | error (msg : String)

/-- The environment of one loop iteration: how the optimize call ends, the
trials dataframe afterwards, and `time.time() - start_the_clock` at the
early-stopping check. -/
structure LoopInput where
  outcome : TrialOutcome
  df : List TrialRow
  elapsed : ℝ

/-- The arguments of one `study.optimize` call: `n_trials` and `timeout`. -/
structure OptimizeCall where
  nTrials : ℕ
  timeout : ℝ

/-- The `while successful_trials(study) < n_trials` loop (lines 187-234),
as the list of optimize calls it issues: each iteration consumes one
environment record (an exhausted list embeds the while-condition turning
false); the iteration calls `study.optimize` with `n_trials=1` and
`timeout = estimated_run_time`, breaks on `KeyboardInterrupt` or any other
exception, and otherwise runs the early-stopping check, which either breaks
or updates `estimated_run_time` for the next iteration. -/
noncomputable def runLoop (wallTimeSecs : ℝ) : ℝ → List LoopInput → List OptimizeCall
  | _, [] => []
  | est, inp :: rest =>
    OptimizeCall.mk 1 est ::
      (match inp.outcome with
       | .interrupt => []
       | .error _ => []
       | .ok =>
         if (budgetCheck wallTimeSecs inp.df inp.elapsed est).stop then []
         else runLoop wallTimeSecs
           (budgetCheck wallTimeSecs inp.df inp.elapsed est).estimate rest)

/-- The loop as entered by `main`: line 186 initializes
`estimated_run_time = wall_time_secs - (time.time() - start_the_clock)`,
the remaining budget at entry. -/
noncomputable def mainLoop (wallTimeSecs elapsed0 : ℝ) (inputs : List LoopInput) :
    List OptimizeCall :=
  runLoop wallTimeSecs (wallTimeSecs - elapsed0) inputs

end EchoRun

namespace Echo

/-!
Embedding of `BaseObjective.update_config` (`echo/src/base_objective.py`,
lines 46-90).  The configuration is a tree over `SVal` leaves; the
hyperparameter specification `conf["optuna"]["parameters"]` maps declared
names to spec subtrees, and `trial_suggest_loader(trial, update)` (whose
module is not part of this snapshot) is abstracted as an opaque function
`suggest` from the spec subtree to the suggested value.
-/

open EchoConfig

/-- A configuration tree with `SVal` leaves. -/
abbrev Conf := Entries SVal

/-- `conf["optuna"]["parameters"]` (line 57); absent or non-mapping levels
are junk-mapped to the empty specification (Python would raise `KeyError`,
a case the theorems below avoid by hypothesis or concrete input). -/
def getParams (conf : Conf) : List (String × CVal SVal) :=
  match lookupKey "optuna" conf with
  | some (.node o) =>
    match lookupKey "parameters" o with
    | some (.node p) => p
    | _ => []
  | _ => []

/-- Splitting a character list on every colon (the groups between colons;
Python `str.split(":")` semantics: the empty string yields one empty
group). -/
def splitChars : List Char → List (List Char)
  | [] => [[]]
  | c :: cs =>
    if c = ':' then [] :: splitChars cs
    else
      match splitChars cs with
      | [] => [[c]]
      | g :: gs => (c :: g) :: gs

/-- Python `name.split(":")`, embedded structurally on the string's
characters (Lean's own `String.splitOn` does not reduce in the kernel). -/
def pySplitColon (s : String) : List String :=
  (splitChars s.data).map (fun l => String.mk l)

/-- Python `":" in name`: for the single-character separator this is exactly
character membership. -/
def pyContainsColon (s : String) : Bool :=
  s.data.contains ':'

/-- Python `":".join(segments)`. -/
def joinColon : List String → String
  | [] => ""
  | [x] => x
  | x :: xs => x ++ ":" ++ joinColon xs

/-- One step of the update loop (lines 58-69): a name containing a colon is
split and applied with `recursive_update`; a colon-free name is assigned at
top level only when already present in the configuration; in both applied
cases the name is appended to `updated`. -/
def ucStep (suggest : CVal SVal → SVal) (acc : Conf × List String)
    (p : String × CVal SVal) : Conf × List String :=
  if pyContainsColon p.1 then
    (recursive_update (pySplitColon p.1) acc.1 (suggest p.2), acc.2 ++ [p.1])
  else if (lookupKey p.1 acc.1).isSome then
    (setKey p.1 (.leaf (suggest p.2)) acc.1, acc.2 ++ [p.1])
  else acc

/-- `u.split(":")[-1]`: the last colon-separated segment of a name. -/
def lastSeg (u : String) : String := (pySplitColon u).getLastD ""

/-- The first colon-separated segment of a name (the top-level key its
update touches). -/
def firstSeg (s : String) : String := (pySplitColon s).headD ""

/-- Python `u in k` in the observation loop (lines 72-78): an element test
while `k` is still the reader's segment sequence, a substring test once `k`
has been rebound to a joined string. -/
def pyIn (u : String) (k : List String ⊕ String) : Bool :=
  match k with
  | .inl path => path.contains u
  | .inr s =>
    (List.range (s.data.length + 1)).any
      (fun i => ((s.data.drop i).take u.data.length) == u.data)

/-- `":".join(k)` in the observation loop: joining the segment sequence, or
— after `k` has already been rebound to a string — joining its characters. -/
def pyJoinSeg : List String ⊕ String → String
  | .inl p => joinColon p
  | .inr s => joinColon (s.data.map (fun c => String.mk [c]))

/-- The inner observation loop for one flattened `(k, v)` pair (lines 73-78),
including the source's rebinding of `k` to the joined string on a match: the
strings appended to `observed`. -/
def obsForPair (updated : List String) (k0 : List String) : List String :=
  (updated.foldl
    (fun (st : (List String ⊕ String) × List String) u =>
      if pyIn (lastSeg u) st.1 then
        (Sum.inr (pyJoinSeg st.1), st.2 ++ [pyJoinSeg st.1])
      else st)
    (Sum.inl k0, [])).2

/-- `BaseObjective.update_config` (lines 46-90): deep-copy the configuration
(implicit in the pure embedding), apply the suggestion loop to every declared
hyperparameter, recover the `observed` joined paths from the flattened
mutated tree, and return the mutated configuration together with the
`updated` names and the `not_updated` names that are only warned about
(Python's `set(...) - set(...)` has arbitrary order; the embedding keeps
declaration order). -/
def update_config (suggest : CVal SVal → SVal) (conf0 : Conf) :
    Conf × List String × List String :=
  let hp := getParams conf0
  let st := hp.foldl (ucStep suggest) (conf0, [])
  let observed := (recursive_config_reader st.1).foldl
      (fun acc p => acc ++ obsForPair st.2 p.1) []
  let notUpdated := (hp.map Prod.fst).filter (fun q => !(observed.contains q))
  (st.1, st.2, notUpdated)

end Echo

namespace EchoConfig

/-- `C3`: for every non-empty sequence of string path segments `P` and every
value `V`, applying `recursive_update` with `P` and `V` to an empty
configuration tree and then flattening with `recursive_config_reader` yields
exactly one `(path, value)` pair, whose path equals `P` and whose value
equals `V`. -/
theorem update_empty_then_read (P : List String) {α : Type} (V : α) (hP : P ≠ []) :
    recursive_config_reader (recursive_update P ([] : Entries α) V) = [(P, V)] := by
  induction P with
  | nil => exact absurd rfl hP
  | cons p ps ih =>
    cases ps with
    | nil =>
      simp [recursive_config_reader, recursive_update, setKey, readerEntries, readerVal]
    | cons q qs =>
      have hne : q :: qs ≠ [] := List.cons_ne_nil q qs
      have hrec := ih hne
      simp only [recursive_update, lookupKey, setKey] at *
      simp only [recursive_config_reader, readerEntries, readerVal, List.append_nil] at *
      rw [hrec]
      rfl

/-- Witness for `C3` at the concrete path `["a", "b"]` and value `(7 : Int)`. -/
theorem update_empty_then_read_witness :
    recursive_config_reader
        (recursive_update ["a", "b"] ([] : Entries Int) 7) = [(["a", "b"], 7)] :=
  update_empty_then_read ["a", "b"] 7 (List.cons_ne_nil _ _)

end EchoConfig

namespace Echo

/-- Inversion of a successful `save`: the output is the persistence body's
result. -/
theorem save_ok_inv (metric : Metric) (res : Results) (disk : List DiskRow)
    (trial : Trial) (rd : List (String × SVal)) (out : SaveOut)
    (hok : save metric res disk trial rd = .ok out) :
    out = saveSuccess metric res disk trial rd := by
  unfold save at hok
  cases hcm : checkMetrics metric rd with
  | some msg => rw [hcm] at hok; cases hok
  | none => rw [hcm] at hok; exact (Except.ok.inj hok).symm

/-- The in-memory ledger a successful `save` leaves behind. -/
theorem saveSuccess_results (metric : Metric) (res : Results) (disk : List DiskRow)
    (trial : Trial) (rd : List (String × SVal)) :
    (saveSuccess metric res disk trial rd).results =
      setVal "pruned" (.scalar (.num (if trial.shouldPrune then 1 else 0)))
        (rd.foldl (fun r p => resAppend p.1 p.2 r)
          (trial.params.foldl (fun r p => resAppend p.1 p.2 r)
            (resAppend "trial" (.num trial.number) res))) := rfl

/-- The on-disk rows a successful `save` writes. -/
theorem saveSuccess_disk (metric : Metric) (res : Results) (disk : List DiskRow)
    (trial : Trial) (rd : List (String × SVal)) :
    (saveSuccess metric res disk trial rd).disk =
      mergeLedger (memRows (saveSuccess metric res disk trial rd).results) disk := rfl

/-- Assignment wins on lookup: `d[k] = v` makes `d[k]` evaluate to `v`. -/
theorem alookup_setVal_self {β : Type} (k : String) (v : β) (l : List (String × β)) :
    alookup k (setVal k v l) = some v := by
  induction l with
  | nil => simp [setVal, alookup]
  | cons p rest ih =>
    obtain ⟨k', v'⟩ := p
    by_cases h : k' = k
    · simp [setVal, alookup, h]
    · simp [setVal, alookup, h, ih]

/-- A dataframe row looks a column up by taking the corresponding results
cell at that row index. -/
theorem alookup_dfRow (res : Results) (k : String) (i : ℕ) :
    alookup k (dfRow res i) = (alookup k res).map (fun c => dfCell c i) := by
  induction res with
  | nil => rfl
  | cons p rest ih =>
    obtain ⟨k', c⟩ := p
    by_cases h : k' = k
    · simp [dfRow, alookup, h]
    · simpa [dfRow, alookup, h] using ih

/-- `C1`: if the training routine's results dictionary misses the required
metric (the single declared metric, or any element of the declared metric
list), `save` raises the missing-metric assertion, and neither the in-memory
ledger nor the on-disk results file changes (the ledger state is returned
untouched and no row is persisted). -/
theorem save_missing_metric_no_write (metric : Metric) (st : LedgerState)
    (trial : Trial) (rd : List (String × SVal))
    (h : match metric with
         | .single s => hasKey s rd = false
         | .multi ms => ∃ m ∈ ms, hasKey m rd = false) :
    (∃ msg, (saveStep st metric trial rd).2 = .error msg) ∧
      (saveStep st metric trial rd).1 = st := by
  have hcm : ∃ msg, checkMetrics metric rd = some msg := by
    cases metric with
    | single s =>
      simp only at h
      exact ⟨missingMetricMsg s, by simp [checkMetrics, h]⟩
    | multi ms =>
      simp only at h
      obtain ⟨m, hm, hmiss⟩ := h
      cases hfs : ms.findSome?
          (fun m => if hasKey m rd then none else some (missingMetricMsg m)) with
      | none =>
        rw [List.findSome?_eq_none_iff] at hfs
        have := hfs m hm
        rw [hmiss] at this
        simp at this
      | some msg => exact ⟨msg, by simp [checkMetrics, hfs]⟩
  obtain ⟨msg, hmsg⟩ := hcm
  constructor
  · exact ⟨msg, by simp [saveStep, save, hmsg]⟩
  · simp [saveStep, save, hmsg]

/-- Witness for `C1`: a training routine returning `{"val_loss": 0.5}` under
the study metric `"val_accuracy"` fails and leaves the empty ledger state
untouched. -/
theorem save_missing_metric_no_write_witness :
    (∃ msg, (saveStep ⟨[], []⟩ (.single "val_accuracy") ⟨0, [], false⟩
        [("val_loss", .num (1/2))]).2 = .error msg) ∧
      (saveStep ⟨[], []⟩ (.single "val_accuracy") ⟨0, [], false⟩
        [("val_loss", .num (1/2))]).1 = ⟨[], []⟩ :=
  save_missing_metric_no_write (.single "val_accuracy") ⟨[], []⟩ ⟨0, [], false⟩
    [("val_loss", .num (1/2))] (by rfl)

/-- Every row kept by `drop_duplicates` is a row of the input. -/
theorem mem_of_mem_dropDupTrials {α : Type} (l : List (ℕ × α)) (x : ℕ × α)
    (hx : x ∈ dropDupTrials l) : x ∈ l := by
  induction l using dropDupTrials.induct with
  | case1 => simp [dropDupTrials] at hx
  | case2 r rs ih =>
    rw [dropDupTrials] at hx
    rcases List.mem_cons.mp hx with h | h
    · simp [h]
    · exact List.mem_cons_of_mem _ (List.mem_of_mem_filter (ih h))

/-- After `drop_duplicates(["trial"])`, trial numbers are pairwise distinct. -/
theorem dropDupTrials_keys_nodup {α : Type} (l : List (ℕ × α)) :
    ((dropDupTrials l).map Prod.fst).Nodup := by
  induction l using dropDupTrials.induct with
  | case1 => simp [dropDupTrials]
  | case2 r rs ih =>
    rw [dropDupTrials]
    simp only [List.map_cons, List.nodup_cons]
    refine ⟨fun hmem => ?_, ih⟩
    obtain ⟨x, hx, hfst⟩ := List.mem_map.mp hmem
    have hxl := mem_of_mem_dropDupTrials _ _ hx
    have hq := List.of_mem_filter hxl
    simp [hfst] at hq

/-- Filtering by a weaker predicate does not change the first match of a
stronger one. -/
theorem find?_filter_of_imp {α : Type} (l : List α) (p q : α → Bool)
    (h : ∀ a, p a = true → q a = true) :
    (l.filter q).find? p = l.find? p := by
  induction l with
  | nil => rfl
  | cons a t ih =>
    by_cases hq : q a
    · rw [List.filter_cons_of_pos hq]
      by_cases hp : p a
      · rw [List.find?_cons_of_pos _ hp, List.find?_cons_of_pos _ hp]
      · rw [List.find?_cons_of_neg _ (by simp [hp]),
          List.find?_cons_of_neg _ (by simp [hp]), ih]
    · have hp : p a = false := by
        cases hpa : p a
        · rfl
        · exact absurd (h a hpa) (by simp [hq])
      rw [List.filter_cons_of_neg (by simp [hq]),
        List.find?_cons_of_neg _ (by simp [hp]), ih]

/-- The first row with a given trial number survives `drop_duplicates`. -/
theorem find?_mem_dropDupTrials {α : Type} (l : List (ℕ × α)) (n : ℕ) (x : ℕ × α)
    (hf : l.find? (fun r => r.1 == n) = some x) : x ∈ dropDupTrials l := by
  induction l using dropDupTrials.induct with
  | case1 => simp at hf
  | case2 r rs ih =>
    rw [dropDupTrials]
    by_cases hr : r.1 = n
    · rw [List.find?_cons_of_pos _ (by simp [hr])] at hf
      exact (Option.some.inj hf) ▸ List.mem_cons_self r _
    · rw [List.find?_cons_of_neg _ (by simp [hr])] at hf
      refine List.mem_cons_of_mem _ (ih ?_)
      rw [find?_filter_of_imp rs (fun r => r.1 == n) (fun s => s.1 != r.1)
        (fun a ha => ?_), hf]
      have han : a.1 = n := by simpa using ha
      have hne : n ≠ r.1 := fun he => hr he.symm
      simp [han, hne]

/-- In a row list with pairwise-distinct trial numbers, the first match for a
member's trial number is that member. -/
theorem find?_eq_of_mem_nodup {α : Type} (l : List (ℕ × α)) (n : ℕ) (v : α)
    (hmem : (n, v) ∈ l) (hnd : (l.map Prod.fst).Nodup) :
    l.find? (fun r => r.1 == n) = some (n, v) := by
  induction l with
  | nil => simp at hmem
  | cons a t ih =>
    simp only [List.map_cons, List.nodup_cons] at hnd
    rcases List.mem_cons.mp hmem with h | h
    · subst h
      exact List.find?_cons_of_pos _ (by simp)
    · have hne : a.1 ≠ n := fun he =>
        hnd.1 (he ▸ List.mem_map_of_mem Prod.fst h)
      rw [List.find?_cons_of_neg _ (by simp [hne])]
      exact ih h hnd.2

/-- In a row list with pairwise-distinct trial numbers, two rows sharing a
trial number carry the same payload. -/
theorem assoc_eq_of_keys_nodup {α : Type} (l : List (ℕ × α))
    (hnd : (l.map Prod.fst).Nodup) (n : ℕ) (u v : α)
    (hv : (n, v) ∈ l) (hu : (n, u) ∈ l) : u = v := by
  induction l with
  | nil => simp at hv
  | cons a t ih =>
    simp only [List.map_cons, List.nodup_cons] at hnd
    rcases List.mem_cons.mp hv with h1 | h1 <;> rcases List.mem_cons.mp hu with h2 | h2
    · exact ((Prod.mk.injEq _ _ _ _).mp (h2.trans h1.symm)).2
    · refine absurd ?_ hnd.1
      rw [← h1]
      show (n : ℕ) ∈ t.map Prod.fst
      exact List.mem_map_of_mem Prod.fst h2
    · refine absurd ?_ hnd.1
      rw [← h2]
      show (n : ℕ) ∈ t.map Prod.fst
      exact List.mem_map_of_mem Prod.fst h1
    · exact ih hnd.2 h1 h2

/-- `sort_values(["trial"])` permutes the rows. -/
theorem sortTrials_perm {α : Type} (l : List (ℕ × α)) :
    List.Perm (sortTrials l) l :=
  List.perm_insertionSort _ _

/-- `sort_values(["trial"])` sorts by trial number ascending. -/
theorem sortTrials_sorted {α : Type} (l : List (ℕ × α)) :
    List.Sorted (fun a b => a.1 ≤ b.1) (sortTrials l) := by
  haveI : IsTotal (ℕ × α) (fun a b => a.1 ≤ b.1) := ⟨fun a b => le_total a.1 b.1⟩
  haveI : IsTrans (ℕ × α) (fun a b => a.1 ≤ b.1) :=
    ⟨fun a b c hab hbc => le_trans hab hbc⟩
  exact List.sorted_insertionSort _ _

/-- `C2`: a successful `save` for trial number `n` whose in-memory dataframe
has one row per trial number and contains the new row `(n, v)`, while the
on-disk ledger already holds a row `(n, w)` with different values, writes
back a ledger with pairwise-distinct trial numbers in which the row for `n`
is exactly the new one (the newer write wins), sorted ascending by trial
number. -/
theorem save_ledger_newer_wins (metric : Metric) (res : Results)
    (disk : List DiskRow) (trial : Trial) (rd : List (String × SVal))
    (out : SaveOut) (hok : save metric res disk trial rd = .ok out)
    (n : ℕ) (v w : List (String × Option SVal))
    (hnew : (n, v) ∈ memRows out.results)
    (huniq : ((memRows out.results).map Prod.fst).Nodup)
    (_hold : (n, w) ∈ disk) (_hdiff : w ≠ v) :
    (out.disk.map Prod.fst).Nodup ∧
    (n, v) ∈ out.disk ∧
    (∀ u, (n, u) ∈ out.disk → u = v) ∧
    List.Sorted (fun a b => a.1 ≤ b.1) out.disk := by
  have h := save_ok_inv metric res disk trial rd out hok
  subst h
  rw [saveSuccess_disk] at *
  have hfindM := find?_eq_of_mem_nodup _ n v hnew huniq
  have hfind :
      ((memRows (saveSuccess metric res disk trial rd).results) ++ disk).find?
        (fun r => r.1 == n) = some (n, v) := by
    rw [List.find?_append, hfindM]; rfl
  have hmemd := find?_mem_dropDupTrials _ n _ hfind
  have hperm :
      List.Perm
        (mergeLedger (memRows (saveSuccess metric res disk trial rd).results) disk)
        (dropDupTrials ((memRows (saveSuccess metric res disk trial rd).results) ++ disk)) :=
    sortTrials_perm _
  have hnd :
      ((mergeLedger (memRows (saveSuccess metric res disk trial rd).results) disk).map
        Prod.fst).Nodup :=
    ((hperm.map Prod.fst).nodup_iff).mpr (dropDupTrials_keys_nodup _)
  refine ⟨hnd, hperm.mem_iff.mpr hmemd, fun u hu => ?_, sortTrials_sorted _⟩
  exact assoc_eq_of_keys_nodup _ hnd n u v (hperm.mem_iff.mpr hmemd) hu

/-- Witness for `C2`: a fresh worker saves trial 2 with metric value 9 while
the disk already holds rows for trials 1, 2 (older values), 3; the written
ledger contains the new row for trial 2 and is sorted ascending. -/
theorem save_ledger_newer_wins_witness :
    ((2 : ℕ),
        [("trial", some (SVal.num 2)), ("a", some (SVal.num 9)),
         ("pruned", some (SVal.num 0))]) ∈
      (saveSuccess (.single "a") []
        [(1, [("a", some (.num 7))]), (2, [("a", some (.num 5))]),
         (3, [("a", some (.num 8))])] ⟨2, [], false⟩ [("a", .num 9)]).disk ∧
    List.Sorted (fun a b => a.1 ≤ b.1)
      (saveSuccess (.single "a") []
        [(1, [("a", some (.num 7))]), (2, [("a", some (.num 5))]),
         (3, [("a", some (.num 8))])] ⟨2, [], false⟩ [("a", .num 9)]).disk := by
  have h := save_ledger_newer_wins (.single "a") []
    [(1, [("a", some (.num 7))]), (2, [("a", some (.num 5))]),
     (3, [("a", some (.num 8))])] ⟨2, [], false⟩ [("a", .num 9)] _ rfl 2
    [("trial", some (.num 2)), ("a", some (.num 9)), ("pruned", some (.num 0))]
    [("a", some (.num 5))] (by decide) (by decide) (by decide) (by decide)
  exact ⟨h.2.1, h.2.2.2⟩

/-- `C8` (code evaluation at the failing input): with the declared metric
list `["a", "b"]` and a first trial whose training routine returns
`{"a": 1, "b": 2}`, the multi-objective branch of `save` returns the
per-metric accumulated ledger lists `[[1], [2]]` — lists of lists — rather
than the trial's metric values `[1, 2]`. -/
theorem save_multi_returns_history_lists :
    saveRet? (save (.multi ["a", "b"]) [] [] ⟨0, [], false⟩
        [("a", .num 1), ("b", .num 2)]) =
      some (.multi [[.num 1], [.num 2]]) := by rfl

/-- `C10`: after every successful `save`, the `"pruned"` entry of the
in-memory ledger is a single scalar holding the current trial's
`should_prune()` flag (not a per-trial list), and therefore every row of the
dataframe built from the in-memory ledger carries that most recent flag. -/
theorem save_pruned_scalar_broadcast (metric : Metric) (res : Results)
    (disk : List DiskRow) (trial : Trial) (rd : List (String × SVal))
    (out : SaveOut) (hok : save metric res disk trial rd = .ok out) :
    alookup "pruned" out.results =
      some (.scalar (.num (if trial.shouldPrune then 1 else 0))) ∧
    ∀ i, alookup "pruned" (dfRow out.results i) =
      some (some (.num (if trial.shouldPrune then 1 else 0))) := by
  have hout := save_ok_inv metric res disk trial rd out hok
  subst hout
  rw [saveSuccess_results]
  refine ⟨alookup_setVal_self _ _ _, fun i => ?_⟩
  rw [alookup_dfRow, alookup_setVal_self]
  rfl

/-- Witness for `C10` at a concrete successful save (single metric `"a"`,
pruned trial): the `"pruned"` cell is the scalar `1` and row 0 of the
dataframe carries it. -/
theorem save_pruned_scalar_broadcast_witness :
    alookup "pruned"
        (saveSuccess (.single "a") [] [] ⟨0, [], true⟩ [("a", .num 1)]).results =
      some (.scalar (.num 1)) ∧
    alookup "pruned"
        (dfRow (saveSuccess (.single "a") [] [] ⟨0, [], true⟩ [("a", .num 1)]).results 0) =
      some (some (.num 1)) := by
  have h := save_pruned_scalar_broadcast (.single "a") [] [] ⟨0, [], true⟩
    [("a", .num 1)] (saveSuccess (.single "a") [] [] ⟨0, [], true⟩ [("a", .num 1)]) rfl
  exact ⟨h.1, h.2 0⟩

end Echo

namespace EchoRun

/-- `C4`: whenever two or more trials have a recorded completion timestamp,
the early-stopping check sets `estimated_run_time` to the mean of the
completed run times plus two times their (sample) standard deviation, and it
stops the loop before launching another trial exactly when the remaining
wall time is less than that estimate. -/
theorem budget_estimate_two_completed (wall elapsed est : ℝ) (df : List TrialRow)
    (h2 : 2 ≤ (runTimesHours df).length) :
    (budgetCheck wall df elapsed est).estimate =
      dfMean (runTimesHours df) + 2 * dfStd (runTimesHours df) ∧
    ((budgetCheck wall df elapsed est).stop = true ↔
      wall - elapsed < dfMean (runTimesHours df) + 2 * dfStd (runTimesHours df)) := by
  have hle : (runTimesHours df).length ≤ df.length := List.length_filterMap_le _ _
  have hlen : 1 < df.length := by omega
  unfold budgetCheck
  rw [if_pos hlen]
  by_cases hlt :
      wall - elapsed < dfMean (runTimesHours df) + 2 * dfStd (runTimesHours df)
  · rw [if_pos hlt]
    exact ⟨rfl, by simpa using hlt⟩
  · rw [if_neg hlt]
    exact ⟨rfl, by simpa using hlt⟩

/-- Witness for `C4`: two completed trials of 3600 seconds each. -/
theorem budget_estimate_two_completed_witness :
    (budgetCheck 5000 [⟨0, some 3600⟩, ⟨0, some 3600⟩] 100 0).estimate =
      dfMean (runTimesHours [⟨0, some 3600⟩, ⟨0, some 3600⟩]) +
        2 * dfStd (runTimesHours [⟨0, some 3600⟩, ⟨0, some 3600⟩]) ∧
    ((budgetCheck 5000 [⟨0, some 3600⟩, ⟨0, some 3600⟩] 100 0).stop = true ↔
      5000 - 100 < dfMean (runTimesHours [⟨0, some 3600⟩, ⟨0, some 3600⟩]) +
        2 * dfStd (runTimesHours [⟨0, some 3600⟩, ⟨0, some 3600⟩])) :=
  budget_estimate_two_completed 5000 100 0 _ (by simp [runTimesHours])

/-- `C6` (amended): when the trials dataframe has at most one row, the check
stops exactly when the time left is below half the wall time, leaves
`estimated_run_time` unchanged on stop, and otherwise sets it to `0.95`
times the time left. -/
theorem budget_few_rows (wall elapsed est : ℝ) (df : List TrialRow)
    (h : df.length ≤ 1) :
    ((budgetCheck wall df elapsed est).stop = true ↔ wall - elapsed < wall / 2) ∧
    ((budgetCheck wall df elapsed est).stop = false →
      (budgetCheck wall df elapsed est).estimate = 0.95 * (wall - elapsed)) ∧
    ((budgetCheck wall df elapsed est).stop = true →
      (budgetCheck wall df elapsed est).estimate = est) := by
  have hlen : ¬ 1 < df.length := by omega
  unfold budgetCheck
  rw [if_neg hlen]
  by_cases hlt : wall - elapsed < wall / 2
  · rw [if_pos hlt]
    exact ⟨by simpa using hlt, fun hc => absurd hc (by simp), fun _ => rfl⟩
  · rw [if_neg hlt]
    exact ⟨by simpa using hlt, fun _ => rfl, fun hc => absurd hc (by simp)⟩

/-- Witness for `C6` (amended): empty dataframe, `wall_limit = 3600`,
`elapsed = 1000`: the loop proceeds and the estimate becomes
`0.95 * 2600 = 2470`. -/
theorem budget_few_rows_witness :
    ((budgetCheck 3600 [] 1000 0).stop = true ↔ (3600 : ℝ) - 1000 < 3600 / 2) ∧
    ((budgetCheck 3600 [] 1000 0).stop = false →
      (budgetCheck 3600 [] 1000 0).estimate = 0.95 * ((3600 : ℝ) - 1000)) :=
  ⟨(budget_few_rows 3600 1000 0 [] (by simp)).1,
   (budget_few_rows 3600 1000 0 [] (by simp)).2.1⟩

/-- Counterexample for `C6` as stated: with two dataframe rows of which only
one has a completion timestamp (so "fewer than two completed trials exist"),
`wall_limit = 3600` and `elapsed = 2000` (remaining `1600 < 1800`), the
source takes the mean/std branch — its guard is `df.shape[0] > 1`, counting
all rows — and does **not** stop.  (At this input the source's sample std of
one value is NaN, every comparison with which is false; the real-number
embedding junk-maps it to 0 and reaches the same not-stop decision.) -/
theorem budget_few_completed_counterexample :
    (runTimesHours [⟨0, some 360⟩, ⟨400, none⟩]).length = 1 ∧
    ((3600 : ℝ) - 2000 < 3600 / 2) ∧
    (budgetCheck 3600 [⟨0, some 360⟩, ⟨400, none⟩] 2000 0).stop = false := by
  refine ⟨by simp [runTimesHours], by norm_num, ?_⟩
  have hrt : runTimesHours [⟨0, some 360⟩, ⟨400, none⟩] = [(360 - 0) / 3600] := by
    simp [runTimesHours]
  unfold budgetCheck
  rw [if_pos (by simp), if_neg ?_]
  rw [hrt]
  have hm : dfMean [((360 : ℝ) - 0) / 3600] = 0.1 := by norm_num [dfMean]
  have hs : dfStd [((360 : ℝ) - 0) / 3600] = 0 := by
    rw [dfStd, hm]
    norm_num
  rw [hm, hs]
  norm_num

/-- `C7`: a `KeyboardInterrupt` or any other exception raised during the
optimize call makes the loop break at once: the failing iteration's call is
the last one, nothing propagates (the loop still returns a call list), and
no further trial is launched. -/
theorem loop_stops_on_interrupt_or_error (wall est : ℝ) (inp : LoopInput)
    (rest : List LoopInput)
    (h : inp.outcome = .interrupt ∨ ∃ msg, inp.outcome = .error msg) :
    runLoop wall est (inp :: rest) = [⟨1, est⟩] := by
  rcases h with h | ⟨msg, h⟩ <;> simp only [runLoop, h]

/-- Witness for `C7`: an interrupt during the first trial stops the loop
after that single optimize call. -/
theorem loop_stops_on_interrupt_or_error_witness :
    runLoop 3600 1800 [⟨.interrupt, [], 0⟩] = [⟨1, 1800⟩] :=
  loop_stops_on_interrupt_or_error 3600 1800 ⟨.interrupt, [], 0⟩ [] (Or.inl rfl)

end EchoRun

namespace EchoRun

/-- Every optimize call the loop issues asks for exactly one trial. -/
theorem runLoop_nTrials_one (wall : ℝ) (inputs : List LoopInput) :
    ∀ est, ∀ c ∈ runLoop wall est inputs, c.nTrials = 1 := by
  induction inputs with
  | nil =>
    intro est c hc
    simp [runLoop] at hc
  | cons inp rest ih =>
    intro est c hc
    rw [runLoop] at hc
    rcases List.mem_cons.mp hc with h | h
    · rw [h]
    · cases ho : inp.outcome with
      | interrupt => rw [ho] at h; simp at h
      | error msg => rw [ho] at h; simp at h
      | ok =>
        rw [ho] at h
        by_cases hs : (budgetCheck wall inp.df inp.elapsed est).stop
        · rw [if_pos hs] at h; simp at h
        · rw [if_neg hs] at h
          exact ih _ c h

/-- `C5` (amended): every iteration asks the optimizer for exactly one trial
(`n_trials=1`); the timeout of the first call equals the remaining budget at
loop entry (line 186), and after a non-stopping iteration the loop continues
with `estimated_run_time` set by the budget check — so every later call's
timeout is the previous check's estimate, not the remaining budget. -/
theorem optimize_calls_spec (wall e0 : ℝ) (inputs : List LoopInput) :
    (∀ c ∈ mainLoop wall e0 inputs, c.nTrials = 1) ∧
    (∀ inp rest, inputs = inp :: rest →
      (mainLoop wall e0 inputs).head? = some ⟨1, wall - e0⟩) ∧
    (∀ est (inp : LoopInput) rest, inp.outcome = .ok →
      (budgetCheck wall inp.df inp.elapsed est).stop = false →
      runLoop wall est (inp :: rest) =
        ⟨1, est⟩ :: runLoop wall (budgetCheck wall inp.df inp.elapsed est).estimate rest) := by
  refine ⟨runLoop_nTrials_one wall inputs _, fun inp rest hi => ?_, ?_⟩
  · subst hi
    rw [mainLoop, runLoop]
    rfl
  · intro est inp rest hok hstop
    rw [runLoop, hok, if_neg (by simp [hstop])]

/-- Witness for `C5` (amended), at a one-iteration loop interrupted during
its trial: the single call has `n_trials = 1` and timeout `3600 - 100`. -/
theorem optimize_calls_spec_witness :
    (mainLoop 3600 100 [⟨.interrupt, [], 0⟩]).head? =
      some ⟨1, (3600 : ℝ) - 100⟩ :=
  (optimize_calls_spec 3600 100 [⟨.interrupt, [], 0⟩]).2.1 ⟨.interrupt, [], 0⟩ [] rfl

/-- Counterexample for `C5` as stated: with wall time 3600 and two normal
iterations whose dataframe holds two completed one-hour trials, the loop's
optimize calls carry timeouts `[3600, 1]`: the second call's timeout is the
budget check's estimate (`mean + 2*std = 1`, in hours), not the remaining
wall-time budget `3600 - 100 = 3500`. -/
theorem loop_timeout_not_remaining_counterexample :
    (mainLoop 3600 0
      [⟨.ok, [⟨0, some 3600⟩, ⟨100, some 3700⟩], 100⟩,
       ⟨.ok, [⟨0, some 3600⟩, ⟨100, some 3700⟩], 200⟩]).map OptimizeCall.timeout
      = [3600, 1] ∧ (1 : ℝ) ≠ 3600 - 100 := by
  have hrt : runTimesHours [⟨0, some 3600⟩, ⟨100, some 3700⟩] = [1, 1] := by
    simp only [runTimesHours, List.filterMap_cons, List.filterMap_nil,
      Option.map_some']
    norm_num
  have hm : dfMean [(1 : ℝ), 1] = 1 := by norm_num [dfMean]
  have hs : dfStd [(1 : ℝ), 1] = 0 := by
    rw [dfStd, hm]
    norm_num
  have hcheck : ∀ est elapsed : ℝ, 1 ≤ 3600 - elapsed →
      budgetCheck 3600 [⟨0, some 3600⟩, ⟨100, some 3700⟩] elapsed est =
        ⟨false, 1⟩ := by
    intro est elapsed hrem
    unfold budgetCheck
    rw [if_pos (by simp), hrt, hm, hs, if_neg (by push_neg; linarith)]
    norm_num
  have e1 : mainLoop 3600 0
      [⟨.ok, [⟨0, some 3600⟩, ⟨100, some 3700⟩], 100⟩,
       ⟨.ok, [⟨0, some 3600⟩, ⟨100, some 3700⟩], 200⟩] =
      ⟨1, 3600 - 0⟩ ::
        runLoop 3600 1 [⟨.ok, [⟨0, some 3600⟩, ⟨100, some 3700⟩], 200⟩] := by
    rw [mainLoop, runLoop]
    rw [hcheck (3600 - 0) 100 (by norm_num)]
    simp
  have e2 : runLoop 3600 1 [⟨.ok, [⟨0, some 3600⟩, ⟨100, some 3700⟩], 200⟩] =
      [⟨1, 1⟩] := by
    rw [runLoop]
    rw [hcheck 1 200 (by norm_num)]
    simp [runLoop]
  rw [e1, e2]
  norm_num

end EchoRun

namespace Echo

open EchoConfig

/-- Names already recorded as updated stay recorded through the rest of the
suggestion loop. -/
theorem ucFold_updated_mono (s : CVal SVal → SVal)
    (hp : List (String × CVal SVal)) :
    ∀ acc : Conf × List String, ∀ u, u ∈ acc.2 →
      u ∈ (hp.foldl (ucStep s) acc).2 := by
  induction hp with
  | nil => intro acc u hu; exact hu
  | cons p t ih =>
    intro acc u hu
    rw [List.foldl_cons]
    apply ih
    unfold ucStep
    by_cases h1 : pyContainsColon p.1 = true
    · rw [if_pos h1]; exact List.mem_append_left _ hu
    · rw [if_neg h1]
      by_cases h2 : (lookupKey p.1 acc.1).isSome = true
      · rw [if_pos h2]; exact List.mem_append_left _ hu
      · rw [if_neg h2]; exact hu

/-- A declared name containing a colon is always recorded as updated. -/
theorem ucFold_colon_mem (s : CVal SVal → SVal) (hp : List (String × CVal SVal)) :
    ∀ acc : Conf × List String, ∀ p ∈ hp, pyContainsColon p.1 = true →
      p.1 ∈ (hp.foldl (ucStep s) acc).2 := by
  induction hp with
  | nil => intro acc p h; simp at h
  | cons q t ih =>
    intro acc p hmem hc
    rw [List.foldl_cons]
    rcases List.mem_cons.mp hmem with h | h
    · subst h
      apply ucFold_updated_mono
      unfold ucStep
      rw [if_pos hc]
      exact List.mem_append_right _ (List.mem_singleton_self _)
    · exact ih _ p h hc

/-- Lookup after `setKey`: the set key reads back the new value, every other
key is unchanged. -/
theorem lookupKey_setKey {α : Type} (k k' : String) (v : CVal α) (c : Entries α) :
    lookupKey k (setKey k' v c) = if k' = k then some v else lookupKey k c := by
  induction c with
  | nil => by_cases h : k' = k <;> simp [setKey, lookupKey, h]
  | cons p rest ih =>
    obtain ⟨k0, v0⟩ := p
    by_cases he : k0 = k'
    · subst he
      by_cases hk : k0 = k <;> simp [setKey, lookupKey, hk]
    · by_cases hk0 : k0 = k
      · have hk' : k' ≠ k := fun h => he (hk0.trans h.symm)
        have hne : ¬ k = k' := fun h => he (hk0.trans h)
        simp [setKey, lookupKey, he, hk0, hk', hne]
      · simp [setKey, lookupKey, he, hk0, ih]

/-- `recursive_update` never removes a top-level key. -/
theorem recursive_update_key_isSome {α : Type} (k : String) (path : List String)
    (c : Entries α) (v : α) (h : (lookupKey k c).isSome = true) :
    (lookupKey k (recursive_update path c v)).isSome = true := by
  cases path with
  | nil => exact h
  | cons p ps =>
    cases ps with
    | nil =>
      show (lookupKey k (setKey p (.leaf v) c)).isSome = true
      rw [lookupKey_setKey]
      by_cases hp : p = k
      · rw [if_pos hp]; rfl
      · rw [if_neg hp]; exact h
    | cons q qs =>
      show (lookupKey k (setKey p (.node _) c)).isSome = true
      rw [lookupKey_setKey]
      by_cases hp : p = k
      · rw [if_pos hp]; rfl
      · rw [if_neg hp]; exact h

/-- A top-level key present after `recursive_update` was present before or is
the path's first segment. -/
theorem recursive_update_key_isSome_inv {α : Type} (k : String) (path : List String)
    (c : Entries α) (v : α)
    (h : (lookupKey k (recursive_update path c v)).isSome = true) :
    (lookupKey k c).isSome = true ∨ k = path.headD "" := by
  cases path with
  | nil => exact Or.inl h
  | cons p ps =>
    cases ps with
    | nil =>
      rw [show recursive_update [p] c v = setKey p (.leaf v) c from rfl,
        lookupKey_setKey] at h
      by_cases hp : p = k
      · exact Or.inr (by simp [hp.symm])
      · rw [if_neg hp] at h; exact Or.inl h
    | cons q qs =>
      rw [show recursive_update (p :: q :: qs) c v =
          setKey p (.node (recursive_update (q :: qs)
            (match lookupKey p c with | some (.node m) => m | _ => []) v)) c from rfl,
        lookupKey_setKey] at h
      by_cases hp : p = k
      · exact Or.inr (by simp [hp.symm])
      · rw [if_neg hp] at h; exact Or.inl h

/-- One update step never removes a top-level configuration key. -/
theorem ucStep_key_mono (s : CVal SVal → SVal) (acc : Conf × List String)
    (q : String × CVal SVal) (k : String)
    (h : (lookupKey k acc.1).isSome = true) :
    (lookupKey k (ucStep s acc q).1).isSome = true := by
  unfold ucStep
  by_cases h1 : pyContainsColon q.1 = true
  · rw [if_pos h1]
    exact recursive_update_key_isSome _ _ _ _ h
  · rw [if_neg h1]
    by_cases h2 : (lookupKey q.1 acc.1).isSome = true
    · rw [if_pos h2]
      show (lookupKey k (setKey q.1 (.leaf (s q.2)) acc.1)).isSome = true
      rw [lookupKey_setKey]
      by_cases hp : q.1 = k
      · rw [if_pos hp]; rfl
      · rw [if_neg hp]; exact h
    · rw [if_neg h2]; exact h

/-- A top-level key present after one update step was present before, or is
the processed name's first segment, or the name itself. -/
theorem ucStep_key_inv (s : CVal SVal → SVal) (acc : Conf × List String)
    (q : String × CVal SVal) (k : String)
    (h : (lookupKey k (ucStep s acc q).1).isSome = true) :
    (lookupKey k acc.1).isSome = true ∨ k = firstSeg q.1 ∨ k = q.1 := by
  unfold ucStep at h
  by_cases h1 : pyContainsColon q.1 = true
  · rw [if_pos h1] at h
    rcases recursive_update_key_isSome_inv k _ _ _ h with h' | h'
    · exact Or.inl h'
    · exact Or.inr (Or.inl h')
  · rw [if_neg h1] at h
    by_cases h2 : (lookupKey q.1 acc.1).isSome = true
    · rw [if_pos h2] at h
      rw [show ((setKey q.1 (CVal.leaf (s q.2)) acc.1,
          acc.2 ++ [q.1]) : Conf × List String).1 =
          setKey q.1 (CVal.leaf (s q.2)) acc.1 from rfl, lookupKey_setKey] at h
      by_cases hp : q.1 = k
      · exact Or.inr (Or.inr hp.symm)
      · rw [if_neg hp] at h; exact Or.inl h
    · rw [if_neg h2] at h; exact Or.inl h

/-- A colon-free declared name that is absent from the configuration, and
whose top-level key no other declared update creates, stays absent and is
never recorded as updated by one step. -/
theorem ucStep_plain_absent (s : CVal SVal → SVal) (acc : Conf × List String)
    (q : String × CVal SVal) (np : String)
    (hnp : pyContainsColon np = false)
    (h1 : (lookupKey np acc.1).isSome = false) (h2 : np ∉ acc.2)
    (hseg : q.1 ≠ np → firstSeg q.1 ≠ np) :
    (lookupKey np (ucStep s acc q).1).isSome = false ∧ np ∉ (ucStep s acc q).2 := by
  by_cases hq : q.1 = np
  · have hstep : ucStep s acc q = acc := by
      unfold ucStep
      rw [if_neg (by rw [hq]; simp [hnp]), if_neg (by rw [hq]; simp [h1])]
    rw [hstep]
    exact ⟨h1, h2⟩
  · constructor
    · cases hks : (lookupKey np (ucStep s acc q).1).isSome with
      | false => rfl
      | true =>
        exfalso
        rcases ucStep_key_inv s acc q np hks with h' | h' | h'
        · rw [h1] at h'; exact Bool.false_ne_true h'
        · exact (hseg hq) h'.symm
        · exact hq h'.symm
    · unfold ucStep
      by_cases hc : pyContainsColon q.1 = true
      · rw [if_pos hc]
        simp only [List.mem_append, List.mem_singleton]
        rintro (h | h)
        · exact h2 h
        · exact hq h.symm
      · rw [if_neg hc]
        by_cases hk : (lookupKey q.1 acc.1).isSome = true
        · rw [if_pos hk]
          simp only [List.mem_append, List.mem_singleton]
          rintro (h | h)
          · exact h2 h
          · exact hq h.symm
        · rw [if_neg hk]; exact h2

/-- A colon-free declared name absent from the configuration, whose top-level
key no other declared update creates, stays absent through the whole
suggestion loop and is never recorded as updated. -/
theorem ucFold_plain_absent (s : CVal SVal → SVal) (np : String)
    (hnp : pyContainsColon np = false) (hp : List (String × CVal SVal)) :
    ∀ acc : Conf × List String,
      (lookupKey np acc.1).isSome = false → np ∉ acc.2 →
      (∀ q ∈ hp, q.1 ≠ np → firstSeg q.1 ≠ np) →
      (lookupKey np (hp.foldl (ucStep s) acc).1).isSome = false ∧
        np ∉ (hp.foldl (ucStep s) acc).2 := by
  induction hp with
  | nil => intro acc h1 h2 _; exact ⟨h1, h2⟩
  | cons q t ih =>
    intro acc h1 h2 hseg
    rw [List.foldl_cons]
    have hstep := ucStep_plain_absent s acc q np hnp h1 h2
      (fun hne => hseg q (List.mem_cons_self q t) hne)
    exact ih _ hstep.1 hstep.2 (fun q' hq' hne => hseg q' (List.mem_cons_of_mem _ hq') hne)

/-- A colon-free declared name present in the configuration is recorded as
updated (configuration keys only grow during the loop). -/
theorem ucFold_plain_present_mem (s : CVal SVal → SVal)
    (hp : List (String × CVal SVal)) :
    ∀ acc : Conf × List String, ∀ p ∈ hp, pyContainsColon p.1 = false →
      (lookupKey p.1 acc.1).isSome = true →
      p.1 ∈ (hp.foldl (ucStep s) acc).2 := by
  induction hp with
  | nil => intro acc p h; simp at h
  | cons q t ih =>
    intro acc p hmem hc hk
    rw [List.foldl_cons]
    rcases List.mem_cons.mp hmem with h | h
    · subst h
      apply ucFold_updated_mono
      unfold ucStep
      rw [if_neg (by simp [hc]), if_pos hk]
      exact List.mem_append_right _ (List.mem_singleton_self _)
    · exact ih _ p h hc (ucStep_key_mono s acc q p.1 hk)

/-- `C9` (amended): in `update_config`, every declared name containing a colon
obtains a suggestion and is recorded as updated; a colon-free declared name
already present as a top-level key of the baseline configuration likewise; a
colon-free declared name absent from the baseline (and whose top-level key no
other declared update creates) is skipped entirely — no suggestion is
obtained, it is not recorded as updated, and the key is still absent from the
mutated tree, leaving only the non-fatal `not_updated` warning path. -/
theorem update_config_selection (s : CVal SVal → SVal) (conf0 : Conf)
    (np : String) :
    (∀ spec, (np, spec) ∈ getParams conf0 → pyContainsColon np = true →
      np ∈ (update_config s conf0).2.1) ∧
    (∀ spec, (np, spec) ∈ getParams conf0 → pyContainsColon np = false →
      (lookupKey np conf0).isSome = true → np ∈ (update_config s conf0).2.1) ∧
    (pyContainsColon np = false → (lookupKey np conf0).isSome = false →
      (∀ q ∈ getParams conf0, q.1 ≠ np → firstSeg q.1 ≠ np) →
      np ∉ (update_config s conf0).2.1 ∧
        (lookupKey np (update_config s conf0).1).isSome = false) := by
  have hfst : (update_config s conf0).2.1 =
      ((getParams conf0).foldl (ucStep s) (conf0, [])).2 := rfl
  have hconf : (update_config s conf0).1 =
      ((getParams conf0).foldl (ucStep s) (conf0, [])).1 := rfl
  refine ⟨?_, ?_, ?_⟩
  · intro spec hmem hc
    rw [hfst]
    exact ucFold_colon_mem s _ (conf0, []) (np, spec) hmem hc
  · intro spec hmem hc hk
    rw [hfst]
    exact ucFold_plain_present_mem s _ (conf0, []) (np, spec) hmem hc hk
  · intro hc hk hseg
    have h := ucFold_plain_absent s np hc (getParams conf0) (conf0, []) hk
      (by simp) hseg
    rw [hfst, hconf]
    exact ⟨h.2, h.1⟩

/-- Witness for `C9` (amended): the declared colon path `"a:b"` is recorded
as updated. -/
theorem update_config_selection_witness :
    "a:b" ∈ (update_config (fun _ => SVal.num 5)
      [("optuna", CVal.node
        [("parameters", CVal.node [("a:b", CVal.leaf (SVal.num 0))])])]).2.1 :=
  (update_config_selection (fun _ => SVal.num 5)
    [("optuna", CVal.node
      [("parameters", CVal.node [("a:b", CVal.leaf (SVal.num 0))])])] "a:b").1
    (CVal.leaf (SVal.num 0)) (List.mem_singleton_self _) rfl

/-- Counterexample for `C9` as stated: the colon-free declared name `"lr"`,
absent from the baseline configuration, obtains no suggestion at all — the
`updated` list is empty and the configuration tree is unchanged — while the
claim says every declared name obtains one suggested value and has it
applied; such a name is merely warned about afterwards. -/
theorem update_config_skips_absent_plain_name :
    (update_config (fun _ => SVal.num 5)
      [("optuna", CVal.node
        [("parameters", CVal.node [("lr", CVal.leaf (SVal.num 0))])])]).2.1 = [] ∧
    (update_config (fun _ => SVal.num 5)
      [("optuna", CVal.node
        [("parameters", CVal.node [("lr", CVal.leaf (SVal.num 0))])])]).1 =
      [("optuna", CVal.node
        [("parameters", CVal.node [("lr", CVal.leaf (SVal.num 0))])])] :=
  ⟨rfl, rfl⟩

end Echo
